import Mathlib

/-!
Verification development for the SolidBlock-RL training orchestration subsystem.

The definitions below are a shallow embedding of the JavaScript sources
(`game/game.js`, `ai/train.js`).  JavaScript numbers are modelled as `ℚ`
(all quantities appearing in the verified claims are exact decimal fractions,
so nothing below depends on binary floating-point rounding), board coordinates
as `ℤ`, and every call to `Math.random()` is modelled by reading successive
values of an oracle stream `r : Nat → ℚ` at an explicit counter, each value
assumed to lie in `[0, 1)` where a theorem needs it.  Fallible code
(`getRandomFreePosition` throws when the board is full) is modelled with
`Except Unit`.  Debug-only fields of the JS `Game` class
(`cyclePenaltyCount`, `wallPenaltyCount`, `debugPatternDetection`) and console
logging are omitted: no verified property mentions them.
-/

namespace SolidBlockRL

/-- The four movement actions (`'up' | 'down' | 'left' | 'right'` in the JS
source; modelled as a closed enumeration). -/
inductive Action where
  | up : Action
  | down : Action
  | left : Action
  | right : Action
deriving DecidableEq, Repr

instance : Inhabited Action := ⟨Action.up⟩

/-- An integer board cell, as the `{x, y}` object literals of `game.js`. -/
structure Pos where
  x : ℤ
  y : ℤ
deriving DecidableEq, Repr

/-- Modelled from the spec: `game/constants.js` (which defines `BOARD_WIDTH`)
is not present under `src/`; the spec fixes a 20×15 board. -/
def BOARD_WIDTH : ℤ := 20

/-- Modelled from the spec: `game/constants.js` (which defines `BOARD_HEIGHT`)
is not present under `src/`; the spec fixes a 20×15 board. -/
def BOARD_HEIGHT : ℤ := 15

/-- `EXPLORATION_BONUS = 0.6` from `game.js`. -/
def EXPLORATION_BONUS : ℚ := 3 / 5

/-- The mutable state of the JS `Game` class (the fields read or written by
the environment operations the claims are about). -/
structure Game where
  width : ℤ
  height : ℤ
  tickCount : ℕ
  score : ℚ
  foodEaten : ℕ
  redBlocksEaten : ℕ
  greenBlocksEaten : ℕ
  obstacles : List Pos
  redBlocks : List Pos
  greenBlocks : List Pos
  player : Pos
  food : Pos
  moveHistory : List Action
  visitedCells : List Pos
deriving DecidableEq, Repr

attribute [ext] Game

/-- `Game.isWithinBounds(x, y)`. -/
def isWithinBounds (g : Game) (x y : ℤ) : Bool :=
  decide (0 ≤ x) && decide (x < g.width) && decide (0 ≤ y) && decide (y < g.height)

/-- `Game.isOccupied(x, y)`: the cell is the player, the food, an obstacle, or
a bonus block.  (Post-construction, `player` and `food` are always set, so the
JS truthiness guards on them are always taken.) -/
def isOccupied (g : Game) (p : Pos) : Bool :=
  decide (p = g.player) || decide (p = g.food) || decide (p ∈ g.obstacles) ||
    decide (p ∈ g.redBlocks) || decide (p ∈ g.greenBlocks)

/-- The rejection-sampling loop of `Game.getRandomFreePosition`, with the
remaining number of permitted attempts as fuel.  The JS `do … while` draws
`x = Math.floor(Math.random()*width)`, `y = Math.floor(Math.random()*height)`,
increments `attempts`, throws once `attempts > 1000`, and repeats while the
drawn cell is occupied; so the throw happens exactly when 1000 consecutive
draws were occupied. -/
def drawFreeGo (occ : Pos → Bool) (w h : ℤ) (r : Nat → ℚ) :
    Nat → Nat → Except Unit (Pos × Nat)
  | _, 0 => Except.error ()
  | k, fuel + 1 =>
    let p : Pos := ⟨Int.floor (r k * w), Int.floor (r (k + 1) * h)⟩
    if occ p then drawFreeGo occ w h r (k + 2) fuel
    else Except.ok (p, k + 2)

/-- Rejection sampling with the source's bound of 1000 attempts. -/
def drawFree (occ : Pos → Bool) (w h : ℤ) (r : Nat → ℚ) (k : Nat) :
    Except Unit (Pos × Nat) :=
  drawFreeGo occ w h r k 1000

/-- `Game.getRandomFreePosition()`. -/
def getRandomFreePosition (g : Game) (r : Nat → ℚ) (k : Nat) :
    Except Unit (Pos × Nat) :=
  drawFree (isOccupied g) g.width g.height r k

/-- The cross-shaped obstacle list built by the `Game` constructor and by
`setObstaclePattern('normal')`: a 3-wide, 9-tall vertical bar followed by a
9-wide, 3-tall horizontal bar, both centred, with duplicates kept (the raw
push order of the two JS loops, y-major then x-major). -/
def crossObstacles (w h : ℤ) : List Pos :=
  let centerX := (w - 1) / 2
  let centerY := (h - 1) / 2
  ((List.range 9).flatMap fun dy =>
    (List.range 3).map fun dx =>
      Pos.mk (centerX - 1 + (dx : ℤ)) (centerY - 4 + (dy : ℤ))) ++
  ((List.range 9).flatMap fun dx =>
    (List.range 3).map fun dy =>
      Pos.mk (centerX - 4 + (dx : ℤ)) (centerY - 1 + (dy : ℤ)))

/-- The diamond obstacle layout of `setObstaclePattern('diamond')`:
7 rows of widths 1, 3, 5, 7, 5, 3, 1 centred on the board. -/
def diamondObstacles (w h : ℤ) : List Pos :=
  let centerX := (w - 1) / 2
  let centerY := (h - 1) / 2
  [Pos.mk centerX (centerY - 3)] ++
  ((List.range 3).map fun dx => Pos.mk (centerX - 1 + (dx : ℤ)) (centerY - 2)) ++
  ((List.range 5).map fun dx => Pos.mk (centerX - 2 + (dx : ℤ)) (centerY - 1)) ++
  ((List.range 7).map fun dx => Pos.mk (centerX - 3 + (dx : ℤ)) centerY) ++
  ((List.range 5).map fun dx => Pos.mk (centerX - 2 + (dx : ℤ)) (centerY + 1)) ++
  ((List.range 3).map fun dx => Pos.mk (centerX - 1 + (dx : ℤ)) (centerY + 2)) ++
  [Pos.mk centerX (centerY + 3)]

/-- Deduplication keeping first occurrences, as the constructor's
`Array.from(new Map(obstacles.map(o => [key, o])).values())` does (a JS `Map`
keeps the position of the first insertion of each key). -/
def dedupFirst (seen : List Pos) : List Pos → List Pos
  | [] => []
  | p :: rest =>
    if p ∈ seen then dedupFirst seen rest
    else p :: dedupFirst (p :: seen) rest

/-- `Game.setObstaclePattern(pattern)`: replaces the obstacle list with the
chosen deterministic layout; unknown names fall back to the `normal` cross.
(The JS `switch` pushes the raw lists without deduplication.) -/
def setObstaclePattern (g : Game) (pattern : String) : Game :=
  let obstacles :=
    if pattern = "normal" then crossObstacles g.width g.height
    else if pattern = "diamond" then diamondObstacles g.width g.height
    else if pattern = "none" then ([] : List Pos)
    else crossObstacles g.width g.height
  { g with obstacles := obstacles }

/-- The `Game` constructor.  It deduplicates the cross obstacles, starts with
empty bonus-block lists, then draws the player position (at that point
`player`/`food` are still undefined, so only obstacles can collide) and the
food position (now also avoiding the player), and marks the player's starting
cell visited. -/
def mkGame (r : Nat → ℚ) (k : Nat) : Except Unit (Game × Nat) :=
  let obstacles := dedupFirst [] (crossObstacles BOARD_WIDTH BOARD_HEIGHT)
  match drawFree (fun p => decide (p ∈ obstacles)) BOARD_WIDTH BOARD_HEIGHT r k with
  | Except.error e => Except.error e
  | Except.ok (player, k1) =>
    match drawFree (fun p => decide (p = player) || decide (p ∈ obstacles))
        BOARD_WIDTH BOARD_HEIGHT r k1 with
    | Except.error e => Except.error e
    | Except.ok (food, k2) =>
      Except.ok
        ({ width := BOARD_WIDTH
           height := BOARD_HEIGHT
           tickCount := 0
           score := 0
           foodEaten := 0
           redBlocksEaten := 0
           greenBlocksEaten := 0
           obstacles := obstacles
           redBlocks := []
           greenBlocks := []
           player := player
           food := food
           moveHistory := []
           visitedCells := [player] }, k2)

/-- The cell one step from `p` in direction `a`. -/
def targetPos (p : Pos) (a : Action) : Pos :=
  match a with
  | Action.up => ⟨p.x, p.y - 1⟩
  | Action.down => ⟨p.x, p.y + 1⟩
  | Action.left => ⟨p.x - 1, p.y⟩
  | Action.right => ⟨p.x + 1, p.y⟩

/-- `Game.movePlayer(direction)`: the move is rejected (the player stays) if
the target cell is out of bounds or an obstacle (the JS early returns on
`!isWithinBounds` and on `obstacles.some(...)` are written as nested
conditionals with the same semantics). -/
def movePlayer (g : Game) (a : Action) : Game :=
  if isWithinBounds g (targetPos g.player a).x (targetPos g.player a).y = true
    then
    if targetPos g.player a ∈ g.obstacles then g
    else { g with player := targetPos g.player a }
  else g

/-- `list.slice(-n)` of the JS source: the trailing `n` elements. -/
def lastN (n : Nat) (l : List Action) : List Action :=
  l.drop (l.length - n)

/-- The alternation scan of `Game.step`: `false` as soon as two adjacent
entries are equal, `true` otherwise. -/
def patternAlternatesB : List Action → Bool
  | a :: b :: rest => if a = b then false else patternAlternatesB (b :: rest)
  | _ => true

/-- The first pattern-penalty block of `Game.step`: with at least 8 recorded
moves, subtract 1.5 when the last 8 split into two identical 4-move halves.
(The JS code compares the comma-joins of the halves; for two 4-element lists
over the four action strings that is exactly list equality.) -/
def last8Penalty (h : List Action) : ℚ :=
  if 8 ≤ h.length then
    let last8 := lastN 8 h
    if last8.take 4 = last8.drop 4 then 3 / 2 else 0
  else 0

/-- The second pattern-penalty block of `Game.step`, on the last 10 moves:
with exactly one distinct value subtract 2; with exactly two distinct values
subtract 2 when they strictly alternate; otherwise (three or more distinct
values) subtract 0.5 when the first entry of the last 10 (`last10[0]`, the
code's `candidate`) occurs at least 8 times among them.  (`uniqueMoves.length`
of the JS source is the number of distinct values, i.e. `dedup.length`.) -/
def last10Penalty (h : List Action) : ℚ :=
  if 10 ≤ h.length then
    let last10 := lastN 10 h
    if last10.dedup.length = 1 then 2
    else if last10.dedup.length = 2 then
      if patternAlternatesB last10 then 2 else 0
    else
      if 8 ≤ last10.count last10.headI then 1 / 2 else 0
  else 0

/-- The total amount the two pattern-penalty blocks of `Game.step` subtract
from the score for a given (already pushed and capped) move history. -/
def patternPenalty (h : List Action) : ℚ :=
  last8Penalty h + last10Penalty h

/-- The green-block loop of `Game.checkCollisions`: scan the green blocks in
order; each block under the player adds 25 points (counted here), is removed,
and, when red blocks remain, additionally removes the red block at the index
`Math.floor(Math.random() * redBlocks.length)`.  Returns the remaining green
and red lists, the number of greens eaten, and the advanced oracle counter. -/
def processGreens (p : Pos) (r : Nat → ℚ) :
    List Pos → List Pos → Nat → List Pos × List Pos × Nat × Nat
  | [], reds, k => ([], reds, 0, k)
  | gb :: rest, reds, k =>
    if gb = p then
      let reds1 :=
        if reds = [] then reds
        else reds.eraseIdx (Int.floor (r k * reds.length)).toNat
      let k1 := if reds = [] then k else k + 1
      let (gs, rs, c, k2) := processGreens p r rest reds1 k1
      (gs, rs, c + 1, k2)
    else
      let (gs, rs, c, k2) := processGreens p r rest reds k
      (gb :: gs, rs, c, k2)

/-- The red-block loop of `Game.checkCollisions`: remove every red block under
the player, counting them (each costs 20 points). -/
def processReds (p : Pos) : List Pos → List Pos × Nat
  | [] => ([], 0)
  | rb :: rest =>
    let (rs, c) := processReds p rest
    if rb = p then (rs, c + 1) else (rb :: rs, c)

/-- The bonus-block half of `Game.checkCollisions`: the green loop (25 points
per green under the player, plus one random red removal each) followed by the
red loop (−20 points per red under the player). -/
def collideBlocks (g : Game) (r : Nat → ℚ) (k : Nat) : Game × Nat :=
  let res := processGreens g.player r g.greenBlocks g.redBlocks k
  let g2 :=
    { g with
        greenBlocks := res.1
        redBlocks := res.2.1
        score := g.score + 25 * (res.2.2.1 : ℚ)
        greenBlocksEaten := g.greenBlocksEaten + res.2.2.1 }
  let res2 := processReds g2.player g2.redBlocks
  ({ g2 with
      redBlocks := res2.1
      score := g2.score - 20 * (res2.2 : ℚ)
      redBlocksEaten := g2.redBlocksEaten + res2.2 }, res.2.2.2)

/-- `Game.checkCollisions()`.  Landing on the food adds 40, bumps the food
counter and relocates the food by rejection sampling (the occupancy check runs
against the state in which the old food still sits on the player's cell);
then the green loop and the red loop of `collideBlocks` run in order.  The
board-full error of the relocation draw is not caught and propagates. -/
def checkCollisions (g : Game) (r : Nat → ℚ) (k : Nat) :
    Except Unit (Game × Nat) :=
  if g.player = g.food then
    match getRandomFreePosition g r k with
    | Except.error e => Except.error e
    | Except.ok (pos, k1) =>
      Except.ok
        (collideBlocks
          { g with
              score := g.score + 40
              foodEaten := g.foodEaten + 1
              food := pos } r k1)
  else Except.ok (collideBlocks g r k)

/-- `Game.spawnBonusPair()`: draw a free cell for a new red block, append it,
then draw a free cell for a new green block (the occupancy check now also sees
the new red block) and append it.  Board-full errors propagate. -/
def spawnBonusPair (g : Game) (r : Nat → ℚ) (k : Nat) :
    Except Unit (Game × Nat) :=
  match getRandomFreePosition g r k with
  | Except.error e => Except.error e
  | Except.ok (redPos, k1) =>
    match getRandomFreePosition { g with redBlocks := g.redBlocks ++ [redPos] }
        r k1 with
    | Except.error e => Except.error e
    | Except.ok (greenPos, k2) =>
      Except.ok
        ({ g with
            redBlocks := g.redBlocks ++ [redPos]
            greenBlocks := g.greenBlocks ++ [greenPos] }, k2)

/-- `Game.tick()`: advance the tick counter and spawn a bonus pair whenever it
hits a multiple of the spawn interval.  Modelled from the spec:
`game/constants.js` (which defines `TICK_SPAWN_INTERVAL`) is not present under
`src/`; the spec only says bonus blocks spawn "every fixed number of ticks",
so the interval `T` is kept as an explicit parameter. -/
def tick (T : Nat) (g : Game) (r : Nat → ℚ) (k : Nat) :
    Except Unit (Game × Nat) :=
  let g1 := { g with tickCount := g.tickCount + 1 }
  if g1.tickCount % T = 0 then spawnBonusPair g1 r k
  else Except.ok (g1, k)

/-- The deterministic part of `Game.step(action)`, before `checkCollisions`:
move the player, push the action onto the history (dropping the oldest entry
beyond 20), award the exploration bonus for a first visit, apply Manhattan
distance shaping, the insufficient-progress penalty, the two pattern-penalty
blocks, and the wall penalty when the player did not move.  The source's
sequence of `this.score += …` / `this.score -= …` statements is folded into a
single sum; every guard in that sequence reads only data the score mutations
do not touch (positions, the pushed history, the pre-step visited set), so
the fold is exact. -/
def stepPre (g : Game) (a : Action) : Game :=
  let oldPos := g.player
  let g1 := movePlayer g a
  let h1 := g1.moveHistory ++ [a]
  let h2 := if 20 < h1.length then h1.drop 1 else h1
  let firstVisit := g1.player ∉ g1.visitedCells
  let dOld : ℤ := |oldPos.x - g1.food.x| + |oldPos.y - g1.food.y|
  let dNew : ℤ := |g1.player.x - g1.food.x| + |g1.player.y - g1.food.y|
  { g1 with
      moveHistory := h2
      visitedCells :=
        if firstVisit then g1.visitedCells ++ [g1.player] else g1.visitedCells
      score := g1.score +
        (if firstVisit then EXPLORATION_BONUS else 0) +
        ((dOld - dNew : ℤ) : ℚ) -
        (if ((dOld - dNew : ℤ) : ℚ) < 1 / 2 then 1 / 2 else 0) -
        patternPenalty h2 -
        (if g1.player = oldPos then 3 else 0) }

/-- `Game.step(action)`: the deterministic reward shaping, then collision
resolution and the tick (both of which may raise the uncaught board-full
error), returning the new state, the score delta as the reward, and the
always-`false` done flag. -/
def step (T : Nat) (g : Game) (a : Action) (r : Nat → ℚ) (k : Nat) :
    Except Unit (Game × ℚ × Bool × Nat) :=
  match checkCollisions (stepPre g a) r k with
  | Except.error e => Except.error e
  | Except.ok (g8, k1) =>
    match tick T g8 r k1 with
    | Except.error e => Except.error e
    | Except.ok (g9, k2) =>
      Except.ok (g9, g9.score - g.score, false, k2)

/-- `Game.reset()`: zero the tick counter and score, redraw the player
(against the full old occupancy), clear the bonus blocks, redraw the food
(the old food cell still counts as occupied during this draw), clear the move
history and the visited set.  Board-full errors propagate uncaught. -/
def reset (g : Game) (r : Nat → ℚ) (k : Nat) : Except Unit (Game × Nat) :=
  let g0 := { g with tickCount := 0, score := 0 }
  match getRandomFreePosition g0 r k with
  | Except.error e => Except.error e
  | Except.ok (player, k1) =>
    let g1 := { g0 with player := player, redBlocks := [], greenBlocks := [] }
    match getRandomFreePosition g1 r k1 with
    | Except.error e => Except.error e
    | Except.ok (food, k2) =>
      Except.ok
        ({ g1 with
            food := food
            moveHistory := []
            visitedCells := [player] }, k2)

/-- Environment states reachable by the training loop: a freshly constructed
game, or the successful result of a `step` from a reachable state (each step
with its own oracle, as each `Math.random()` value is arbitrary). -/
inductive Reachable (T : Nat) : Game → Prop where
  | init : ∀ (r : Nat → ℚ) (k : Nat) (g : Game) (k' : Nat),
      mkGame r k = Except.ok (g, k') → Reachable T g
  | next : ∀ (g : Game) (a : Action) (r : Nat → ℚ) (k : Nat)
      (g' : Game) (rew : ℚ) (dn : Bool) (k' : Nat),
      Reachable T g → step T g a r k = Except.ok (g', rew, dn, k') →
      Reachable T g'

/-- The `{grid, offset}` feature object produced by `getFeatureVector` in
`train.js` (a 9×9 grid of one-hot vectors and a two-element offset). -/
structure Feature where
  grid : List (List (List ℚ))
  offset : List ℚ
deriving DecidableEq, Repr

/-- The transition records pushed into the replay buffer by `train`:
`{state, action, reward, nextState, done, priority}`.  The `priority` field is
optional because `sampleEnhancedBatch` guards against it being `undefined`. -/
structure Transition where
  state : Feature
  action : ℕ
  reward : ℚ
  nextState : Feature
  done : Bool
  priority : Option ℚ
deriving DecidableEq, Repr

instance : Inhabited Transition :=
  ⟨{ state := ⟨[], []⟩, action := 0, reward := 0, nextState := ⟨[], []⟩,
     done := false, priority := none }⟩

/-- `transition.priority !== undefined ? transition.priority
: Math.abs(transition.reward)` from `sampleEnhancedBatch`. -/
def origPriority (t : Transition) : ℚ :=
  match t.priority with
  | some p => p
  | none => |t.reward|

/-- The effective-priority list of `sampleEnhancedBatch`: entry `i` (oldest
first) gets `priority * ((i+1)/length)^alpha` with `alpha = 2.0`. -/
def effectivePriorities (buffer : List Transition) : List ℚ :=
  (List.range buffer.length).map fun i =>
    origPriority (buffer.getD i default) *
      (((i : ℚ) + 1) / (buffer.length : ℚ)) ^ 2

/-- The roulette-wheel scan of `sampleEnhancedBatch`: walk the effective
priorities accumulating `cumulative += p / total` and return the first index
at which `random < cumulative` (`none` when no index qualifies, as in the JS
loop which then pushes nothing). -/
def rouletteGo (total rand : ℚ) : List ℚ → ℚ → Nat → Option Nat
  | [], _, _ => none
  | p :: rest, cumulative, j =>
    let c := cumulative + p / total
    if rand < c then some j else rouletteGo total rand rest c (j + 1)

/-- One roulette-wheel selection over the whole effective-priority list. -/
def rouletteIdx (eff : List ℚ) (total rand : ℚ) : Option Nat :=
  rouletteGo total rand eff 0 0

/-- `sampleEnhancedBatch(buffer, batchSize)`: with fewer transitions than
requested, return (a shallow copy of) the whole buffer; otherwise return
`floor(batchSize/2)` uniform draws (index `Math.floor(Math.random()*length)`)
concatenated with up to as many roulette-wheel draws over the effective
priorities.  The two oracle streams `ru`/`rp` model the successive
`Math.random()` values consumed by the uniform and the prioritized draws. -/
def sampleEnhancedBatch (buffer : List Transition) (batchSize : Nat)
    (ru rp : Nat → ℚ) : List Transition :=
  if buffer.length < batchSize then buffer
  else
    let halfBatch := batchSize / 2
    let uniformSamples := (List.range halfBatch).map fun i =>
      buffer.getD (Int.floor (ru i * (buffer.length : ℚ))).toNat default
    let eff := effectivePriorities buffer
    let total := eff.sum
    let prioritizedSamples := (List.range halfBatch).filterMap fun i =>
      (rouletteIdx eff total (rp i)).map fun j => buffer.getD j default
    uniformSamples ++ prioritizedSamples

/-- `REPLAY_BUFFER_SIZE = 10000` from `train.js`. -/
def REPLAY_BUFFER_SIZE : ℕ := 10000

/-- One buffer push of the training loop followed by its eviction step:
`replayBuffer.push(t)` and then, when the length exceeds the capacity,
`replayBuffer.splice(0, length - REPLAY_BUFFER_SIZE)` (dropping the oldest
excess entries). -/
def pushWithEvict (buffer : List Transition) (t : Transition) :
    List Transition :=
  let b := buffer ++ [t]
  if REPLAY_BUFFER_SIZE < b.length then b.drop (b.length - REPLAY_BUFFER_SIZE)
  else b

/-- `epsilonDecay = 0.999` from `train.js`. -/
def epsilonDecay : ℚ := 999 / 1000

/-- `epsilonMin = 0.1` from `train.js`. -/
def epsilonMin : ℚ := 1 / 10

/-- `epsilonBoost = 0.2` from `train.js`. -/
def epsilonBoost : ℚ := 1 / 5

/-- The non-boost branch of the per-episode exploration update in `train`:
multiply ε by the decay factor, and reset it to the boost value when the
result falls below the minimum threshold. -/
def epsilonDecayUpdate (eps : ℚ) : ℚ :=
  let e := eps * epsilonDecay
  if e < epsilonMin then epsilonBoost else e

/-- The JSON values `JSON.stringify` / `JSON.parse` exchange through the
checkpoint file.  Numbers are `ℚ` (every checkpoint number is a finite JS
double). -/
inductive Json where
  | null : Json
  | bool (b : Bool) : Json
  | num (q : ℚ) : Json
  | str (s : String) : Json
  | arr (elems : List Json) : Json
  | obj (fields : List (String × Json)) : Json

/-- The `TrainingState` object assembled by `train` for `saveTrainingState`:
`{episode, epsilon, replayBuffer, episodeLosses, episodeMaxQs,
baseLearningRate}`. -/
structure TrainingState where
  episode : ℚ
  epsilon : ℚ
  replayBuffer : List Transition
  episodeLosses : List ℚ
  episodeMaxQs : List ℚ
  baseLearningRate : ℚ
deriving DecidableEq, Repr

/-- Encoding of a feature object into JSON, as `JSON.stringify` lays out the
`{grid, offset}` literal. -/
def encodeFeature (f : Feature) : Json :=
  Json.obj
    [("grid", Json.arr (f.grid.map fun row =>
        Json.arr (row.map fun cell => Json.arr (cell.map Json.num)))),
     ("offset", Json.arr (f.offset.map Json.num))]

/-- Encoding of a transition record into JSON.  `JSON.stringify` omits a field
whose value is `undefined`, so an absent priority produces no `priority`
key. -/
def encodeTransition (t : Transition) : Json :=
  Json.obj
    ([("state", encodeFeature t.state),
      ("action", Json.num (t.action : ℚ)),
      ("reward", Json.num t.reward),
      ("nextState", encodeFeature t.nextState),
      ("done", Json.bool t.done)] ++
     (match t.priority with
      | some p => [("priority", Json.num p)]
      | none => []))

/-- The JSON value `saveTrainingState` writes to the checkpoint file
(`JSON.stringify(state)` on the training-state object literal). -/
def encodeTrainingState (ts : TrainingState) : Json :=
  Json.obj
    [("episode", Json.num ts.episode),
     ("epsilon", Json.num ts.epsilon),
     ("replayBuffer", Json.arr (ts.replayBuffer.map encodeTransition)),
     ("episodeLosses", Json.arr (ts.episodeLosses.map Json.num)),
     ("episodeMaxQs", Json.arr (ts.episodeMaxQs.map Json.num)),
     ("baseLearningRate", Json.num ts.baseLearningRate)]

/-- JSON object field lookup (first matching key). -/
def findField (fields : List (String × Json)) (key : String) : Option Json :=
  match fields with
  | [] => none
  | (k, v) :: rest => if k = key then some v else findField rest key

/-- Decode every element of a JSON array, failing if any element fails. -/
def decodeAll {α : Type} (dec : Json → Option α) : List Json → Option (List α)
  | [] => some []
  | x :: rest =>
    match dec x with
    | none => none
    | some a =>
      match decodeAll dec rest with
      | none => none
      | some as => some (a :: as)

/-- Read a JSON number. -/
def decodeNum : Json → Option ℚ
  | Json.num q => some q
  | _ => none

/-- Read a JSON boolean. -/
def decodeBoolJ : Json → Option Bool
  | Json.bool b => some b
  | _ => none

/-- Read a JSON array of numbers. -/
def decodeNumList : Json → Option (List ℚ)
  | Json.arr xs => decodeAll decodeNum xs
  | _ => none

/-- Read one row of a feature grid (an array of one-hot vectors). -/
def decodeRow : Json → Option (List (List ℚ))
  | Json.arr cells => decodeAll decodeNumList cells
  | _ => none

/-- Read a whole feature grid. -/
def decodeGrid : Json → Option (List (List (List ℚ)))
  | Json.arr rows => decodeAll decodeRow rows
  | _ => none

/-- Read back a feature object from the checkpoint JSON. -/
def decodeFeature (j : Json) : Option Feature :=
  match j with
  | Json.obj fs =>
    match findField fs "grid", findField fs "offset" with
    | some gj, some oj =>
      match decodeGrid gj, decodeNumList oj with
      | some grid, some off => some ⟨grid, off⟩
      | _, _ => none
    | _, _ => none
  | _ => none

/-- Read a JSON number that is a JS array index (the `action` field). -/
def decodeNat (j : Json) : Option ℕ :=
  match j with
  | Json.num q => if q.den = 1 ∧ 0 ≤ q.num then some q.num.toNat else none
  | _ => none

/-- Read back one transition record from the checkpoint JSON; a missing
`priority` key (an `undefined` priority dropped by `JSON.stringify`) decodes
to an absent priority. -/
def decodeTransition (j : Json) : Option Transition :=
  match j with
  | Json.obj fs =>
    match findField fs "state", findField fs "action", findField fs "reward",
        findField fs "nextState", findField fs "done" with
    | some sj, some aj, some rj, some nj, some dj =>
      match decodeFeature sj, decodeNat aj, decodeNum rj, decodeFeature nj,
          decodeBoolJ dj with
      | some s, some a, some rw, some ns, some dn =>
        match findField fs "priority" with
        | some pj =>
          match decodeNum pj with
          | some p => some ⟨s, a, rw, ns, dn, some p⟩
          | none => none
        | none => some ⟨s, a, rw, ns, dn, none⟩
      | _, _, _, _, _ => none
    | _, _, _, _, _ => none
  | _ => none

/-- Read back the training state from the checkpoint JSON, mirroring the field
accesses the resume path of `train` performs on the object returned by
`loadTrainingState` (which is `JSON.parse` of the checkpoint file). -/
def decodeTrainingState (j : Json) : Option TrainingState :=
  match j with
  | Json.obj fs =>
    match findField fs "episode", findField fs "epsilon",
        findField fs "replayBuffer", findField fs "episodeLosses",
        findField fs "episodeMaxQs", findField fs "baseLearningRate" with
    | some ej, some epj, some bj, some lj, some qj, some blrj =>
      match decodeNum ej, decodeNum epj with
      | some e, some ep =>
        match bj with
        | Json.arr bs =>
          match decodeAll decodeTransition bs, decodeNumList lj,
              decodeNumList qj, decodeNum blrj with
          | some buf, some losses, some maxqs, some blr =>
            some ⟨e, ep, buf, losses, maxqs, blr⟩
          | _, _, _, _ => none
        | _ => none
      | _, _ => none
    | _, _, _, _, _, _ => none
  | _ => none

/-- Claim C2's wording of the last-10 rule, as written in the spec: subtract
2 if the last 10 are all identical; subtract 2 if they strictly alternate
between exactly two values; otherwise subtract 0.5 if and only if some single
action value accounts for at least 80% of the last 10 (i.e. occurs at least 8
times). -/
def specLast10PenaltyClaim (h : List Action) : ℚ :=
  let last10 := lastN 10 h
  if last10.dedup.length = 1 then 2
  else if last10.dedup.length = 2 ∧ patternAlternatesB last10 then 2
  else if [Action.up, Action.down, Action.left, Action.right].any
      (fun a => 8 ≤ last10.count a) then 1 / 2
  else 0

/-- Claim C2's full pattern-penalty rule as written: 1.5 for two identical
4-action halves among the last 8, plus the last-10 rule above. -/
def specPatternPenaltyClaim (h : List Action) : ℚ :=
  (if (lastN 8 h).take 4 = (lastN 8 h).drop 4 then 3 / 2 else 0) +
    specLast10PenaltyClaim h

/-- A list made of two identical 4-element halves (the spec's "two identical
4-action halves"). -/
def halvedPair (l : List Action) : Prop :=
  ∃ b : List Action, b.length = 4 ∧ l = b ++ b

instance (l : List Action) : Decidable (halvedPair l) :=
  decidable_of_iff (l.length = 8 ∧ l.take 4 = l.drop 4) (by
    constructor
    · rintro ⟨hlen, heq⟩
      refine ⟨l.take 4, ?_, ?_⟩
      · simp [List.length_take, hlen]
      · conv_lhs => rw [← List.take_append_drop 4 l]
        rw [heq]
    · rintro ⟨b, hb, rfl⟩
      constructor
      · simp [hb]
      · rw [List.take_left' hb, List.drop_left' hb])

/-- The amended pattern-penalty rule, stated declaratively: the last-8 rule is
unchanged; on the last 10, subtract 2 when all are identical, subtract 2 when
exactly two distinct values strictly alternate, and otherwise — only when at
least three distinct values occur — subtract 0.5 exactly when the first of the
last 10 actions occurs at least 8 times among them. -/
def specPatternPenaltyAmended (h : List Action) : ℚ :=
  (if halvedPair (lastN 8 h) then (3 : ℚ) / 2 else 0) +
    (let last10 := lastN 10 h
     if ∀ x ∈ last10, x = last10.headI then (2 : ℚ)
     else if last10.toFinset.card = 2 ∧ List.Chain' (fun a b => ¬a = b) last10
       then 2
     else if 3 ≤ last10.toFinset.card ∧ 8 ≤ last10.count last10.headI
       then 1 / 2
     else 0)

/-- The sum of the effective priorities used by the roulette-wheel half of
`sampleEnhancedBatch`. -/
def totalEffectivePriority (buffer : List Transition) : ℚ :=
  (effectivePriorities buffer).sum

/-! Concrete test data used by counterexamples and witnesses. -/

/-- A transition with priority 1 (as pushed after a reward of magnitude 1). -/
def tA : Transition :=
  { state := ⟨[], []⟩, action := 0, reward := 1, nextState := ⟨[], []⟩,
    done := false, priority := some 1 }

/-- A transition with priority 0 (e.g. after a clipped reward of 0). -/
def tB : Transition :=
  { state := ⟨[], []⟩, action := 1, reward := 0, nextState := ⟨[], []⟩,
    done := true, priority := some 0 }

/-- A move history whose last ten entries are dominated (8 of 10) by a value
that is not the first of the last ten. -/
def exHist : List Action :=
  [Action.up, Action.down, Action.left, Action.left, Action.left, Action.left,
   Action.left, Action.left, Action.left, Action.left]

/-- The deduplicated cross obstacles of the constructor on the 20×15 board. -/
def obstaclesN : List Pos := dedupFirst [] (crossObstacles BOARD_WIDTH BOARD_HEIGHT)

/-- The constant oracle that always draws the obstacle cell (9, 7)
(`floor(0.47·20) = 9`, `floor(0.47·15) = 7`), so every placement attempt
collides. -/
def radv : Nat → ℚ := fun _ => 47 / 100

/-- The all-zero oracle (always draws cell (0, 0)). -/
def rZero : Nat → ℚ := fun _ => 0

/-- The constant oracle drawing 1/2 everywhere. -/
def rHalf : Nat → ℚ := fun _ => 1 / 2

/-- A construction oracle putting the player at (0, 0) and the food at
(5, 5). -/
def rc : Nat → ℚ := fun n => if n = 2 then 1 / 4 else if n = 3 then 1 / 3 else 0

/-- A construction oracle putting the player at (0, 0) and the food at
(0, 1), directly below it. -/
def rc2 : Nat → ℚ := fun n => if n = 3 then 1 / 15 else 0

/-- The game `mkGame rc 0` constructs: player (0, 0), food (5, 5). -/
def g0s : Game :=
  { width := 20, height := 15, tickCount := 0, score := 0, foodEaten := 0,
    redBlocksEaten := 0, greenBlocksEaten := 0, obstacles := obstaclesN,
    redBlocks := [], greenBlocks := [], player := ⟨0, 0⟩, food := ⟨5, 5⟩,
    moveHistory := [], visitedCells := [⟨0, 0⟩] }

/-- The game `mkGame rc2 0` constructs: player (0, 0), food (0, 1). -/
def g0f : Game := { g0s with food := ⟨0, 1⟩ }

/-- The state maintained while the player bounces against the top-left wall:
player parked at (0, 0), food at (5, 5), no bonus blocks, `i` elapsed ticks on
the standard 20×15 board (score, counters and move history are
unconstrained). -/
def bounceInv (i : Nat) (g : Game) : Prop :=
  g.player = ⟨0, 0⟩ ∧ g.food = ⟨5, 5⟩ ∧ g.redBlocks = [] ∧
    g.greenBlocks = [] ∧ g.tickCount = i ∧ g.width = 20 ∧ g.height = 15 ∧
    g.obstacles = obstaclesN ∧ g.visitedCells = [⟨0, 0⟩]

/-- An obstacle-free 20×15 game with the player standing on the food at
(1, 1). -/
def gF : Game :=
  { g0s with
      obstacles := []
      player := ⟨1, 1⟩
      food := ⟨1, 1⟩
      visitedCells := [⟨1, 1⟩] }

/-- `gF` after the food pickup: 40 points, food relocated to (0, 0). -/
def gFr : Game := { gF with score := 40, foodEaten := 1, food := ⟨0, 0⟩ }

/-- `stepPre g0s up`: the up-move from (0, 0) is rejected at the board edge,
costing the progress penalty (0.5) and the wall penalty (3). -/
def gpre : Game := { g0s with moveHistory := [Action.up], score := -7 / 2 }

/-- The state after one full rejected `step` on `g0s` (tick advanced). -/
def gW1 : Game :=
  { g0s with moveHistory := [Action.up], score := -7 / 2, tickCount := 1 }

end SolidBlockRL

namespace SolidBlockRL

/-! Helper lemmas. -/

/-- Unfolding one attempt of the rejection-sampling loop. -/
theorem drawFreeGo_succ (occ : Pos → Bool) (w h : ℤ) (r : Nat → ℚ)
    (k fuel : Nat) :
    drawFreeGo occ w h r k (fuel + 1) =
      (if occ ⟨Int.floor (r k * w), Int.floor (r (k + 1) * h)⟩ then
        drawFreeGo occ w h r (k + 2) fuel
      else
        Except.ok
          ((⟨Int.floor (r k * w), Int.floor (r (k + 1) * h)⟩ : Pos), k + 2)) :=
  rfl

/-- A first draw on a free cell succeeds immediately. -/
theorem drawFree_ok (occ : Pos → Bool) (w h : ℤ) (r : Nat → ℚ) (k : Nat)
    (p : Pos) (hx : Int.floor (r k * w) = p.x)
    (hy : Int.floor (r (k + 1) * h) = p.y) (hocc : occ p = false) :
    drawFree occ w h r k = Except.ok (p, k + 2) := by
  show drawFreeGo occ w h r k 1000 = Except.ok (p, k + 2)
  have hp : (⟨Int.floor (r k * w), Int.floor (r (k + 1) * h)⟩ : Pos) = p := by
    cases p; simp_all
  rw [show (1000 : Nat) = 999 + 1 from rfl, drawFreeGo_succ, hp, hocc]
  simp

/-- If every draw the oracle can produce is occupied, the loop exhausts its
fuel and reports the board-full error. -/
theorem drawFree_stuck (occ : Pos → Bool) (w h : ℤ) (r : Nat → ℚ)
    (hall : ∀ m, occ ⟨Int.floor (r m * w), Int.floor (r (m + 1) * h)⟩ = true) :
    ∀ fuel k, drawFreeGo occ w h r k fuel = Except.error () := by
  intro fuel
  induction fuel with
  | zero => intro k; rfl
  | succ n ih =>
    intro k
    rw [drawFreeGo_succ, hall k, if_pos rfl]
    exact ih (k + 2)

/-- A single buffer push (with its eviction step) never leaves more than the
configured capacity. -/
theorem pushWithEvict_le (b : List Transition) (t : Transition) :
    (pushWithEvict b t).length ≤ REPLAY_BUFFER_SIZE := by
  unfold pushWithEvict
  by_cases hlen : REPLAY_BUFFER_SIZE < (b ++ [t]).length
  · rw [if_pos hlen]
    simp only [List.length_drop]
    omega
  · rw [if_neg hlen]
    omega

/-- C6: for every exploration rate ε, the non-boost per-episode decay update
(multiply by 0.999, then reset to 0.2 when the result drops below 0.1) leaves
ε at least εMin = 0.1, and in particular never 0. -/
theorem epsilonDecayUpdate_ge_min (eps : ℚ) :
    epsilonMin ≤ epsilonDecayUpdate eps ∧ epsilonDecayUpdate eps ≠ 0 := by
  unfold epsilonDecayUpdate
  by_cases hlt : eps * epsilonDecay < epsilonMin
  · rw [if_pos hlt]
    norm_num [epsilonBoost, epsilonMin]
  · rw [if_neg hlt]
    refine ⟨le_of_not_lt hlt, fun h0 => hlt ?_⟩
    rw [h0]
    norm_num [epsilonMin]

/-- C7: after any nonempty sequence of pushes (each followed by its eviction
step) the replay buffer holds at most `REPLAY_BUFFER_SIZE` transitions, and
each push evicts only the oldest entries (the result is a tail of the pushed
buffer). -/
theorem replayBuffer_capacity (buf ts : List Transition) (hne : ts ≠ []) :
    (List.foldl pushWithEvict buf ts).length ≤ REPLAY_BUFFER_SIZE ∧
      ∀ (b : List Transition) (t : Transition),
        ∃ m, pushWithEvict b t = (b ++ [t]).drop m := by
  constructor
  · induction ts generalizing buf with
    | nil => exact absurd rfl hne
    | cons t rest ih =>
      rw [List.foldl_cons]
      rcases rest with _ | ⟨t2, rest2⟩
      · simpa using pushWithEvict_le buf t
      · exact ih (pushWithEvict buf t) (by simp)
  · intro b t
    unfold pushWithEvict
    by_cases hlen : REPLAY_BUFFER_SIZE < (b ++ [t]).length
    · exact ⟨(b ++ [t]).length - REPLAY_BUFFER_SIZE, by rw [if_pos hlen]⟩
    · exact ⟨0, by rw [if_neg hlen, List.drop_zero]⟩

/-- Witness for C7 at a concrete push sequence. -/
theorem replayBuffer_capacity_witness :
    [tA] ≠ ([] : List Transition) ∧
      ((List.foldl pushWithEvict [] [tA]).length ≤ REPLAY_BUFFER_SIZE ∧
        ∀ (b : List Transition) (t : Transition),
          ∃ m, pushWithEvict b t = (b ++ [t]).drop m) :=
  ⟨by simp, replayBuffer_capacity [] [tA] (by simp)⟩

/-- C3, counterexample: on the 20×15 board the `normal` obstacle pattern does
not produce 69 distinct obstacle cells. -/
theorem normalPattern_not_69 :
    (setObstaclePattern g0s "normal").obstacles.toFinset.card ≠ 69 := by
  decide

/-- C3, amended: on the 20×15 board the `normal` obstacle pattern covers
exactly 45 distinct cells (9·3 + 9·3 − 3·3 = 45, the two centred bars minus
their 3×3 overlap), both for `setObstaclePattern('normal')` and for the
deduplicated cross the constructor builds. -/
theorem normalPattern_45 :
    (setObstaclePattern g0s "normal").obstacles.toFinset.card = 45 ∧
      obstaclesN.length = 45 ∧ 9 * 3 + 9 * 3 - 3 * 3 = 45 := by
  refine ⟨by decide, by decide, rfl⟩

/-- The roulette-wheel scan selects an index whenever the random value lies
between the cumulative weight already consumed and the final cumulative
weight. -/
theorem rouletteGo_isSome (total rand : ℚ) :
    ∀ (ps : List ℚ) (c : ℚ) (j : Nat), c ≤ rand →
      rand < c + (ps.map fun p => p / total).sum →
      (rouletteGo total rand ps c j).isSome = true := by
  intro ps
  induction ps with
  | nil => intro c j hc hlt; simp at hlt; exact absurd hlt (not_lt.2 hc)
  | cons p rest ih =>
    intro c j hc hlt
    rw [rouletteGo]
    by_cases hsel : rand < c + p / total
    · rw [if_pos hsel]; rfl
    · rw [if_neg hsel]
      refine ih (c + p / total) (j + 1) (le_of_not_lt hsel) ?_
      simpa [add_assoc] using hlt

/-- Mapping division by the total over a list sums to the list's sum divided
by the total. -/
theorem sum_map_div (l : List ℚ) (c : ℚ) :
    (l.map fun p => p / c).sum = l.sum / c := by
  induction l with
  | nil => simp
  | cons p rest ih => simp [ih, add_div]

/-- `filterMap` over `range n` keeps all `n` entries when the function never
returns `none`. -/
theorem length_filterMap_range {α : Type} (n : Nat) (f : Nat → Option α)
    (hall : ∀ i, i < n → (f i).isSome = true) :
    ((List.range n).filterMap f).length = n := by
  induction n with
  | zero => simp
  | succ m ih =>
    rw [List.range_succ, List.filterMap_append]
    rcases Option.isSome_iff_exists.1 (hall m (Nat.lt_succ_self m)) with ⟨a, ha⟩
    rw [List.length_append, ih fun i hi => hall i (Nat.lt_succ_of_lt hi)]
    simp [ha]

/-- C1, counterexample: with an odd batch size (3 from a buffer of 3) the
hybrid sampler returns 2 entries, not 3; and with all-zero priorities (batch
4 from a buffer of 4) it returns 2 entries, not 4 — in both cases the buffer
is at least as long as the requested batch. -/
theorem sampleEnhancedBatch_cex :
    (3 ≤ ([tA, tA, tA] : List Transition).length ∧
      (sampleEnhancedBatch [tA, tA, tA] 3 rHalf rHalf).length ≠ 3) ∧
    (4 ≤ ([tB, tB, tB, tB] : List Transition).length ∧
      (sampleEnhancedBatch [tB, tB, tB, tB] 4 rHalf rHalf).length ≠ 4) := by
  constructor
  · refine ⟨by norm_num, ?_⟩
    norm_num [sampleEnhancedBatch, effectivePriorities, rouletteIdx, rouletteGo,
      origPriority, tA, rHalf, List.range_succ, Int.floor_eq_iff,
      List.filterMap_cons]
  · refine ⟨by norm_num, ?_⟩
    norm_num [sampleEnhancedBatch, effectivePriorities, rouletteIdx, rouletteGo,
      origPriority, tB, rHalf, List.range_succ, Int.floor_eq_iff,
      List.filterMap_cons]

/-- C1, amended: when the buffer holds at least `n` transitions, the total
effective priority is positive, and each roulette draw lies in `[0, 1)`, the
hybrid sampler returns exactly `2·⌊n/2⌋` entries (`n` for even `n`, `n − 1`
for odd `n`); and whenever the buffer is shorter than the requested batch it
is returned whole, unmodified. -/
theorem sampleEnhancedBatch_count (buffer : List Transition) (n : Nat)
    (ru rp : Nat → ℚ) (hlen : n ≤ buffer.length)
    (hpos : 0 < totalEffectivePriority buffer)
    (hrp : ∀ i, 0 ≤ rp i ∧ rp i < 1) :
    (sampleEnhancedBatch buffer n ru rp).length = 2 * (n / 2) ∧
      ∀ (b2 : List Transition) (m : Nat) (ru2 rp2 : Nat → ℚ),
        b2.length < m → sampleEnhancedBatch b2 m ru2 rp2 = b2 := by
  constructor
  · rw [sampleEnhancedBatch, if_neg (not_lt.2 hlen)]
    rw [List.length_append, List.length_map, List.length_range]
    rw [length_filterMap_range]
    · ring
    · intro i hi
      have hs : (rouletteIdx (effectivePriorities buffer)
          (effectivePriorities buffer).sum (rp i)).isSome = true := by
        apply rouletteGo_isSome
        · exact (hrp i).1
        · rw [zero_add, sum_map_div]
          rw [div_self (ne_of_gt (show (0:ℚ) < (effectivePriorities buffer).sum
            from hpos))]
          exact (hrp i).2
      rcases Option.isSome_iff_exists.1 hs with ⟨j, hj⟩
      simp [hj]
  · intro b2 m ru2 rp2 hlt
    rw [sampleEnhancedBatch, if_pos hlt]

/-- Witness for C1 (amended) at a concrete buffer and batch size. -/
theorem sampleEnhancedBatch_count_witness :
    (2 ≤ ([tA, tA, tA] : List Transition).length ∧
      0 < totalEffectivePriority [tA, tA, tA] ∧
      (∀ i, 0 ≤ rHalf i ∧ rHalf i < 1)) ∧
    ((sampleEnhancedBatch [tA, tA, tA] 2 rHalf rHalf).length = 2 * (2 / 2) ∧
      ∀ (b2 : List Transition) (m : Nat) (ru2 rp2 : Nat → ℚ),
        b2.length < m → sampleEnhancedBatch b2 m ru2 rp2 = b2) := by
  have hpos : 0 < totalEffectivePriority [tA, tA, tA] := by
    norm_num [totalEffectivePriority, effectivePriorities, origPriority, tA,
      List.range_succ]
  have hrp : ∀ i, 0 ≤ rHalf i ∧ rHalf i < 1 := fun i => by norm_num [rHalf]
  exact ⟨⟨by norm_num, hpos, hrp⟩,
    sampleEnhancedBatch_count [tA, tA, tA] 2 rHalf rHalf (by norm_num) hpos hrp⟩

/-- `halvedPair` is equivalent to the `take`/`drop` comparison the JS code
performs on an 8-element slice. -/
theorem halvedPair_iff (l : List Action) :
    halvedPair l ↔ l.length = 8 ∧ l.take 4 = l.drop 4 := by
  constructor
  · rintro ⟨b, hb, rfl⟩
    refine ⟨by simp [hb], ?_⟩
    rw [List.take_left' hb, List.drop_left' hb]
  · rintro ⟨hlen, heq⟩
    refine ⟨l.take 4, ?_, ?_⟩
    · simp [List.length_take, hlen]
    · conv_lhs => rw [← List.take_append_drop 4 l]
      rw [heq]

/-- A nonempty list deduplicates to a single entry exactly when all its
elements equal its first element. -/
theorem dedup_length_one_iff (l : List Action) (hne : l ≠ []) :
    l.dedup.length = 1 ↔ ∀ x ∈ l, x = l.headI := by
  constructor
  · intro h1 x hx
    rcases List.length_eq_one.1 h1 with ⟨a, ha⟩
    have hxa : x = a := by
      have : x ∈ l.dedup := List.mem_dedup.2 hx
      rw [ha] at this
      simpa using this
    have hmem : l.headI ∈ l := by
      cases l with
      | nil => exact absurd rfl hne
      | cons c t => simp
    have hha : l.headI = a := by
      have hh : l.headI ∈ l.dedup := List.mem_dedup.2 hmem
      rw [ha] at hh
      simpa using hh
    rw [hxa, hha]
  · intro hall
    rcases hd : l.dedup with _ | ⟨a, rest⟩
    · exact absurd ((List.dedup_eq_nil l).1 hd) hne
    · rcases rest with _ | ⟨b, rest2⟩
      · rfl
      · exfalso
        have ha : a = l.headI := hall a (List.mem_dedup.1 (by rw [hd]; simp))
        have hb : b = l.headI := hall b (List.mem_dedup.1 (by rw [hd]; simp))
        have hnd : l.dedup.Nodup := l.nodup_dedup
        rw [hd] at hnd
        simp [ha, hb] at hnd

/-- The adjacent-equality scan of `Game.step` decides strict alternation. -/
theorem patternAlternatesB_iff (l : List Action) :
    patternAlternatesB l = true ↔ List.Chain' (fun a b => ¬a = b) l := by
  induction l with
  | nil => simp [patternAlternatesB]
  | cons a rest ih =>
    cases rest with
    | nil => simp [patternAlternatesB]
    | cons b rest2 =>
      rw [patternAlternatesB, List.chain'_cons]
      by_cases hab : a = b
      · simp [hab]
      · simp [hab, ih]

/-- The trailing slice has exactly `n` elements when the history is long
enough. -/
theorem lastN_length (n : Nat) (h : List Action) (hle : n ≤ h.length) :
    (lastN n h).length = n := by
  simp [lastN, Nat.sub_sub_self hle]

/-- C2, counterexample: on the history `up, down, left×8` (10 entries), the
code applies a total pattern penalty of 1.5, while the claim's rule demands 2
(its 80%-dominance clause fires for `left`, which occupies 8 of the last 10,
but the code only tests the first entry of the last 10 as the candidate). -/
theorem patternPenalty_cex : patternPenalty exHist ≠ specPatternPenaltyClaim exHist := by
  have hd : [Action.up, Action.down, Action.left, Action.left, Action.left,
      Action.left, Action.left, Action.left, Action.left,
      Action.left].dedup.length = 3 := by decide
  have hc0 : List.count Action.up [Action.down, Action.left, Action.left,
      Action.left, Action.left, Action.left, Action.left, Action.left,
      Action.left] = 0 := by decide
  have hc8 : List.count Action.left [Action.up, Action.down, Action.left,
      Action.left, Action.left, Action.left, Action.left, Action.left,
      Action.left, Action.left] = 8 := by decide
  have h1 : patternPenalty exHist = 3 / 2 := by
    norm_num [patternPenalty, last8Penalty, last10Penalty, lastN,
      patternAlternatesB, exHist, hd, hc0]
  have h2 : specPatternPenaltyClaim exHist = 2 := by
    norm_num [specPatternPenaltyClaim, specLast10PenaltyClaim, lastN,
      patternAlternatesB, exHist, hd, hc8]
  rw [h1, h2]
  norm_num

/-- C2, amended: for every action history of length at least 10 (and at most
the 20-entry cap), one call to `step` subtracts pattern penalties exactly as
follows: 1.5 if the last 8 actions form two identical 4-action halves; 2 if
the last 10 actions are all identical; 2 if the last 10 use exactly two
distinct values and strictly alternate; otherwise — only when the last 10
contain at least three distinct values — 0.5 if and only if the first of the
last 10 actions accounts for at least 80% of them (a two-valued,
non-alternating history is never penalized by this clause, and the dominant
value is only detected when it is the earliest of the last 10). -/
theorem patternPenalty_amended (h : List Action) (h10 : 10 ≤ h.length)
    (h20 : h.length ≤ 20) :
    patternPenalty h = specPatternPenaltyAmended h := by
  have h8 : 8 ≤ h.length := le_trans (by norm_num) h10
  have hlen8 : (lastN 8 h).length = 8 := lastN_length 8 h h8
  have hlen10 : (lastN 10 h).length = 10 := lastN_length 10 h h10
  have hne10 : lastN 10 h ≠ [] := by
    intro hnil
    rw [hnil] at hlen10
    simp at hlen10
  rw [patternPenalty, last8Penalty, last10Penalty, specPatternPenaltyAmended,
    if_pos h8, if_pos h10]
  have hpartA :
      (if (lastN 8 h).take 4 = (lastN 8 h).drop 4 then (3 : ℚ) / 2 else 0) =
        (if halvedPair (lastN 8 h) then (3 : ℚ) / 2 else 0) := by
    apply if_congr _ rfl rfl
    rw [halvedPair_iff]
    simp [hlen8]
  rw [hpartA]
  congr 1
  simp only [List.card_toFinset]
  by_cases hu1 : (lastN 10 h).dedup.length = 1
  · rw [if_pos hu1,
      if_pos ((dedup_length_one_iff (lastN 10 h) hne10).1 hu1)]
  · have hnall : ¬∀ x ∈ lastN 10 h, x = (lastN 10 h).headI := fun hall =>
      hu1 ((dedup_length_one_iff (lastN 10 h) hne10).2 hall)
    rw [if_neg hu1, if_neg hnall]
    by_cases hu2 : (lastN 10 h).dedup.length = 2
    · rw [if_pos hu2]
      by_cases halt : patternAlternatesB (lastN 10 h) = true
    -- two distinct values: the alternation scan decides both sides
      · rw [if_pos halt,
          if_pos ⟨hu2, (patternAlternatesB_iff (lastN 10 h)).1 halt⟩]
      · rw [if_neg halt,
          if_neg (fun hcc => halt ((patternAlternatesB_iff (lastN 10 h)).2 hcc.2)),
          if_neg (fun hcc => by omega)]
    · have hge1 : 1 ≤ (lastN 10 h).dedup.length := by
        rcases hdn : (lastN 10 h).dedup with _ | ⟨a, rest⟩
        · exact absurd ((List.dedup_eq_nil (lastN 10 h)).1 hdn) hne10
        · simp
      have hge3 : 3 ≤ (lastN 10 h).dedup.length := by omega
      have hnc2 : ¬((lastN 10 h).dedup.length = 2 ∧
          List.Chain' (fun a b => ¬a = b) (lastN 10 h)) := fun hcc => hu2 hcc.1
      rw [if_neg hu2, if_neg hnc2]
      by_cases hcnt : 8 ≤ (lastN 10 h).count (lastN 10 h).headI
      · rw [if_pos hcnt,
          if_pos (show 3 ≤ (lastN 10 h).dedup.length ∧
            8 ≤ (lastN 10 h).count (lastN 10 h).headI from ⟨hge3, hcnt⟩)]
      · rw [if_neg hcnt,
          if_neg (show ¬(3 ≤ (lastN 10 h).dedup.length ∧
            8 ≤ (lastN 10 h).count (lastN 10 h).headI) from fun hcc =>
              hcnt hcc.2)]

/-- Witness for C2 (amended) at the concrete history `up, down, left×8`. -/
theorem patternPenalty_amended_witness :
    (10 ≤ exHist.length ∧ exHist.length ≤ 20) ∧
      patternPenalty exHist = specPatternPenaltyAmended exHist :=
  ⟨⟨by decide, by decide⟩, patternPenalty_amended exHist (by decide) (by decide)⟩

/-- Decoding inverts encoding elementwise across a JSON array. -/
theorem decodeAll_map {α : Type} (dec : Json → Option α) (enc : α → Json)
    (l : List α) (hinv : ∀ x ∈ l, dec (enc x) = some x) :
    decodeAll dec (l.map enc) = some l := by
  induction l with
  | nil => rfl
  | cons x rest ih =>
    rw [List.map_cons, decodeAll, hinv x (by simp),
      ih fun y hy => hinv y (by simp [hy])]

/-- Number lists decode back to themselves. -/
theorem decodeNumList_enc (l : List ℚ) :
    decodeNumList (Json.arr (l.map Json.num)) = some l := by
  rw [decodeNumList]
  exact decodeAll_map decodeNum Json.num l fun x _ => rfl

/-- Feature objects decode back to themselves. -/
theorem decodeFeature_enc (f : Feature) :
    decodeFeature (encodeFeature f) = some f := by
  rw [encodeFeature, decodeFeature]
  have hgrid : decodeGrid (Json.arr (f.grid.map fun row =>
      Json.arr (row.map fun cell => Json.arr (cell.map Json.num)))) =
      some f.grid := by
    rw [decodeGrid]
    apply decodeAll_map
    intro row _
    rw [decodeRow]
    apply decodeAll_map
    intro cell _
    exact decodeNumList_enc cell
  simp [findField, hgrid, decodeNumList_enc]

/-- The `action` index (a natural number stored as a JSON number) decodes back
to itself. -/
theorem decodeNat_enc (n : ℕ) : decodeNat (Json.num (n : ℚ)) = some n := by
  rw [decodeNat]
  rw [if_pos ⟨Rat.den_natCast n, by simp⟩]
  simp

/-- Transition records decode back to themselves (including a dropped
`priority` key for an undefined priority). -/
theorem decodeTransition_enc (t : Transition) :
    decodeTransition (encodeTransition t) = some t := by
  rcases t with ⟨s, a, rw_, ns, dn, pr⟩
  cases pr with
  | none =>
    simp [encodeTransition, decodeTransition, findField, decodeFeature_enc,
      decodeNat_enc, decodeNum, decodeBoolJ]
  | some p =>
    simp [encodeTransition, decodeTransition, findField, decodeFeature_enc,
      decodeNat_enc, decodeNum, decodeBoolJ]

/-- C8: serializing a TrainingState to the checkpoint JSON and reading it back
restores the state exactly — in particular `episode`, `epsilon`,
`baseLearningRate` and the replay buffer are element-wise identical. -/
theorem trainingState_roundTrip (ts : TrainingState) :
    decodeTrainingState (encodeTrainingState ts) = some ts := by
  rcases ts with ⟨e, ep, buf, losses, maxqs, blr⟩
  have hbuf : decodeAll decodeTransition (buf.map encodeTransition) =
      some buf :=
    decodeAll_map decodeTransition encodeTransition buf fun t _ =>
      decodeTransition_enc t
  simp [encodeTrainingState, decodeTrainingState, findField, decodeNum,
    decodeNumList_enc, hbuf]

/-- `movePlayer` leaves the player in place or moves it one cell in the
requested direction. -/
theorem movePlayer_or (g : Game) (a : Action) :
    (movePlayer g a).player = g.player ∨
      (movePlayer g a).player = targetPos g.player a := by
  rw [movePlayer]
  split_ifs <;> first | exact Or.inl rfl | exact Or.inr rfl

/-- `movePlayer` never moves the player out of bounds or onto an obstacle. -/
theorem movePlayer_safe (g : Game) (a : Action)
    (hb : isWithinBounds g g.player.x g.player.y = true)
    (ho : g.player ∉ g.obstacles) :
    isWithinBounds g (movePlayer g a).player.x (movePlayer g a).player.y =
        true ∧
      (movePlayer g a).player ∉ g.obstacles := by
  rw [movePlayer]
  split_ifs with h1 h2
  · exact ⟨hb, ho⟩
  · exact ⟨h1, h2⟩
  · exact ⟨hb, ho⟩

/-- `movePlayer` touches only the player field. -/
theorem movePlayer_keep (g : Game) (a : Action) :
    (movePlayer g a).width = g.width ∧ (movePlayer g a).height = g.height ∧
      (movePlayer g a).obstacles = g.obstacles ∧
      (movePlayer g a).food = g.food := by
  rw [movePlayer]
  split_ifs <;> exact ⟨rfl, rfl, rfl, rfl⟩

/-- Board bounds only depend on the board dimensions. -/
theorem isWithinBounds_eq (g g' : Game) (hw : g'.width = g.width)
    (hh : g'.height = g.height) (x y : ℤ) :
    isWithinBounds g' x y = isWithinBounds g x y := by
  rw [isWithinBounds, isWithinBounds, hw, hh]

/-- `checkCollisions` never changes the player, the board dimensions, or the
obstacles. -/
theorem checkCollisions_keep (g : Game) (r : Nat → ℚ) (k : Nat) (g' : Game)
    (k' : Nat) (hstep : checkCollisions g r k = Except.ok (g', k')) :
    g'.player = g.player ∧ g'.width = g.width ∧ g'.height = g.height ∧
      g'.obstacles = g.obstacles := by
  rw [checkCollisions] at hstep
  split at hstep
  · split at hstep
    · exact Except.noConfusion hstep
    · simp only [collideBlocks, Except.ok.injEq, Prod.mk.injEq] at hstep
      obtain ⟨h1, h2⟩ := hstep
      subst h1
      exact ⟨rfl, rfl, rfl, rfl⟩
  · simp only [collideBlocks, Except.ok.injEq, Prod.mk.injEq] at hstep
    obtain ⟨h1, h2⟩ := hstep
    subst h1
    exact ⟨rfl, rfl, rfl, rfl⟩

/-- `spawnBonusPair` only appends bonus blocks. -/
theorem spawnBonusPair_keep (g : Game) (r : Nat → ℚ) (k : Nat) (g' : Game)
    (k' : Nat) (hstep : spawnBonusPair g r k = Except.ok (g', k')) :
    g'.player = g.player ∧ g'.width = g.width ∧ g'.height = g.height ∧
      g'.obstacles = g.obstacles ∧ g'.tickCount = g.tickCount ∧
      g'.score = g.score := by
  rw [spawnBonusPair] at hstep
  split at hstep
  · exact Except.noConfusion hstep
  · split at hstep
    · exact Except.noConfusion hstep
    · simp only [Except.ok.injEq, Prod.mk.injEq] at hstep
      obtain ⟨h1, h2⟩ := hstep
      subst h1
      exact ⟨rfl, rfl, rfl, rfl, rfl, rfl⟩

/-- `tick` advances the tick counter and (at spawn ticks) only appends bonus
blocks. -/
theorem tick_keep (T : Nat) (g : Game) (r : Nat → ℚ) (k : Nat) (g' : Game)
    (k' : Nat) (hstep : tick T g r k = Except.ok (g', k')) :
    g'.player = g.player ∧ g'.width = g.width ∧ g'.height = g.height ∧
      g'.obstacles = g.obstacles := by
  rw [tick] at hstep
  split at hstep
  · rcases spawnBonusPair_keep _ _ _ _ _ hstep with ⟨h1, h2, h3, h4, _, _⟩
    exact ⟨h1, h2, h3, h4⟩
  · simp only [Except.ok.injEq, Prod.mk.injEq] at hstep
    obtain ⟨h1, h2⟩ := hstep
    subst h1
    exact ⟨rfl, rfl, rfl, rfl⟩

/-- C4: from a legal position (in bounds, not on an obstacle), any successful
`step` leaves the player either in place or exactly one cell away in the
requested direction, still in bounds and never on an obstacle (the obstacle
set itself being unchanged). -/
theorem step_player_safe (T : Nat) (g : Game) (a : Action) (r : Nat → ℚ)
    (k : Nat) (g' : Game) (rew : ℚ) (dn : Bool) (k' : Nat)
    (hb : isWithinBounds g g.player.x g.player.y = true)
    (ho : g.player ∉ g.obstacles)
    (hstep : step T g a r k = Except.ok (g', rew, dn, k')) :
    (g'.player = g.player ∨ g'.player = targetPos g.player a) ∧
      isWithinBounds g' g'.player.x g'.player.y = true ∧
      g'.player ∉ g'.obstacles ∧ g'.obstacles = g.obstacles := by
  rw [step] at hstep
  split at hstep
  · exact Except.noConfusion hstep
  · rename_i g8 k1 hcc0
    split at hstep
    · exact Except.noConfusion hstep
    · rename_i g9 k2 htk0
      simp only [Except.ok.injEq, Prod.mk.injEq] at hstep
      obtain ⟨hg9, _, _, _⟩ := hstep
      subst hg9
      rcases checkCollisions_keep _ _ _ _ _ hcc0 with ⟨hcp, hcw, hch, hco⟩
      rcases tick_keep _ _ _ _ _ _ htk0 with ⟨htp, htw, hth, hto⟩
      have hpre_p : (stepPre g a).player = (movePlayer g a).player := rfl
      have hpre_w : (stepPre g a).width = (movePlayer g a).width := rfl
      have hpre_h : (stepPre g a).height = (movePlayer g a).height := rfl
      have hpre_o : (stepPre g a).obstacles = (movePlayer g a).obstacles := rfl
      rcases movePlayer_keep g a with ⟨hmw, hmh, hmo, _⟩
      have hplayer : g9.player = (movePlayer g a).player := by
        rw [htp, hcp, hpre_p]
      have hobs : g9.obstacles = g.obstacles := by
        rw [hto, hco, hpre_o, hmo]
      have hwidth : g9.width = g.width := by
        rw [htw, hcw, hpre_w, hmw]
      have hheight : g9.height = g.height := by
        rw [hth, hch, hpre_h, hmh]
      rcases movePlayer_safe g a hb ho with ⟨hsb, hso⟩
      refine ⟨?_, ?_, ?_, hobs⟩
      · rw [hplayer]
        exact movePlayer_or g a
      · rw [isWithinBounds_eq g g9 hwidth hheight, hplayer]
        exact hsb
      · rw [hplayer, hobs]
        exact hso

/-- The green loop is the identity when the player is on no green block. -/
theorem processGreens_not_mem (p : Pos) (r : Nat → ℚ) (greens : List Pos) :
    ∀ (reds : List Pos) (k : Nat), p ∉ greens →
      processGreens p r greens reds k = (greens, reds, 0, k) := by
  induction greens with
  | nil => intro reds k _; rfl
  | cons gb rest ih =>
    intro reds k hp
    have hgb : ¬gb = p := fun h => hp (by rw [← h]; exact List.mem_cons_self gb rest)
    have hrest : p ∉ rest := fun h => hp (List.mem_cons_of_mem gb h)
    rw [processGreens, if_neg hgb, ih reds k hrest]

/-- The red loop is the identity when the player is on no red block. -/
theorem processReds_not_mem (p : Pos) (reds : List Pos) (hp : p ∉ reds) :
    processReds p reds = (reds, 0) := by
  induction reds with
  | nil => rfl
  | cons rb rest ih =>
    have hrb : ¬rb = p := fun h => hp (by rw [← h]; exact List.mem_cons_self rb rest)
    have hrest : p ∉ rest := fun h => hp (List.mem_cons_of_mem rb h)
    rw [processReds, ih hrest]
    simp [hrb]

/-- With the player on exactly one green block (no duplicates), the green loop
removes that block, counts it once, and removes the red block at the randomly
drawn index (when reds exist). -/
theorem processGreens_single (p : Pos) (r : Nat → ℚ) (greens : List Pos) :
    ∀ (reds : List Pos) (k : Nat), greens.Nodup → p ∈ greens →
      processGreens p r greens reds k =
        (greens.erase p,
          if reds = [] then reds
          else reds.eraseIdx (Int.floor (r k * (reds.length : ℚ))).toNat,
          1,
          if reds = [] then k else k + 1) := by
  induction greens with
  | nil => intro reds k _ hp; exact absurd hp (List.not_mem_nil p)
  | cons gb rest ih =>
    intro reds k hnd hp
    by_cases hgb : gb = p
    · have hrest : p ∉ rest := hgb ▸ (List.nodup_cons.1 hnd).1
      have herase : (gb :: rest).erase p = rest := by
        rw [hgb]; exact List.erase_cons_head p rest
      rw [processGreens, if_pos hgb]
      simp only []
      rw [processGreens_not_mem p r rest _ _ hrest]
      simp [herase]
    · have hprest : p ∈ rest := by
        rcases List.mem_cons.1 hp with h | h
        · exact absurd h.symm hgb
        · exact h
      rw [processGreens, if_neg hgb,
        ih reds k (List.nodup_cons.1 hnd).2 hprest,
        List.erase_cons_tail (by simpa using hgb)]

/-- With the player on exactly one red block (no duplicates), the red loop
removes that block and counts it once. -/
theorem processReds_single (p : Pos) (reds : List Pos) (hnd : reds.Nodup)
    (hp : p ∈ reds) :
    processReds p reds = (reds.erase p, 1) := by
  induction reds with
  | nil => exact absurd hp (List.not_mem_nil p)
  | cons rb rest ih =>
    by_cases hrb : rb = p
    · have hrest : p ∉ rest := hrb ▸ (List.nodup_cons.1 hnd).1
      rw [processReds, processReds_not_mem p rest hrest]
      rw [show (rb :: rest).erase p = rest from by
        rw [hrb]; exact List.erase_cons_head p rest]
      simp [hrb]
    · have hprest : p ∈ rest := by
        rcases List.mem_cons.1 hp with h | h
        · exact absurd h.symm hrb
        · exact h
      rw [processReds, ih (List.nodup_cons.1 hnd).2 hprest,
        List.erase_cons_tail (by simpa using hrb)]
      simp [hrb]

/-- A random draw scaled to the board is a legal coordinate. -/
theorem floor_draw_bounds (q : ℚ) (w : ℤ) (h0 : 0 ≤ q) (h1 : q < 1)
    (hw : 0 < w) : 0 ≤ Int.floor (q * (w : ℚ)) ∧ Int.floor (q * (w : ℚ)) < w := by
  constructor
  · rw [Int.le_floor]
    push_cast
    exact mul_nonneg h0 (by exact_mod_cast le_of_lt hw)
  · rw [Int.floor_lt]
    calc q * (w : ℚ) < 1 * (w : ℚ) := by
          apply mul_lt_mul_of_pos_right h1
          exact_mod_cast hw
      _ = (w : ℚ) := one_mul _

/-- Any successful rejection-sampling draw returns an unoccupied, in-bounds
cell. -/
theorem drawFreeGo_ok_spec (occ : Pos → Bool) (w h : ℤ) (r : Nat → ℚ)
    (hr : ∀ n, 0 ≤ r n ∧ r n < 1) (hw : 0 < w) (hh : 0 < h) :
    ∀ (fuel k : Nat) (p : Pos) (k' : Nat),
      drawFreeGo occ w h r k fuel = Except.ok (p, k') →
      occ p = false ∧ 0 ≤ p.x ∧ p.x < w ∧ 0 ≤ p.y ∧ p.y < h := by
  intro fuel
  induction fuel with
  | zero => intro k p k' hdraw; exact Except.noConfusion hdraw
  | succ n ih =>
    intro k p k' hdraw
    rw [drawFreeGo_succ] at hdraw
    by_cases hocc : occ ⟨Int.floor (r k * w), Int.floor (r (k + 1) * h)⟩ = true
    · rw [if_pos hocc] at hdraw
      exact ih (k + 2) p k' hdraw
    · rw [if_neg hocc] at hdraw
      simp only [Except.ok.injEq, Prod.mk.injEq] at hdraw
      obtain ⟨hp, _⟩ := hdraw
      subst hp
      refine ⟨by simpa using hocc, ?_, ?_, ?_, ?_⟩
      · exact (floor_draw_bounds (r k) w (hr k).1 (hr k).2 hw).1
      · exact (floor_draw_bounds (r k) w (hr k).1 (hr k).2 hw).2
      · exact (floor_draw_bounds (r (k + 1)) h (hr (k + 1)).1 (hr (k + 1)).2 hh).1
      · exact (floor_draw_bounds (r (k + 1)) h (hr (k + 1)).1 (hr (k + 1)).2 hh).2

/-- C5: pickup resolution on arrival.  Under the environment invariants (no
duplicate blocks, food not aliased with a block, green and red blocks
disjoint), a successful `checkCollisions` behaves exactly as specified:
landing on the food adds 40, bumps the food counter and relocates the food to
a free in-bounds cell; landing on a green block adds 25, bumps the green
counter, removes that block and removes the red block at the uniformly drawn
index when reds exist; landing on a red block subtracts 20, bumps the red
counter and removes that block; with no pickup the state is unchanged.  All
checks run in the same call, so simultaneous pickups would all be applied. -/
theorem checkCollisions_pickups (g : Game) (r : Nat → ℚ) (k : Nat) (g' : Game)
    (k' : Nat) (hndg : g.greenBlocks.Nodup) (hndr : g.redBlocks.Nodup)
    (hfg : g.food ∉ g.greenBlocks) (hfr : g.food ∉ g.redBlocks)
    (hdisj : ∀ p ∈ g.greenBlocks, p ∉ g.redBlocks)
    (hr : ∀ n, 0 ≤ r n ∧ r n < 1) (hw : 0 < g.width) (hh : 0 < g.height)
    (hstep : checkCollisions g r k = Except.ok (g', k')) :
    (g.player = g.food →
      g'.score = g.score + 40 ∧ g'.foodEaten = g.foodEaten + 1 ∧
        isOccupied g g'.food = false ∧ 0 ≤ g'.food.x ∧ g'.food.x < g.width ∧
        0 ≤ g'.food.y ∧ g'.food.y < g.height ∧
        g'.greenBlocks = g.greenBlocks ∧ g'.redBlocks = g.redBlocks ∧
        g'.greenBlocksEaten = g.greenBlocksEaten ∧
        g'.redBlocksEaten = g.redBlocksEaten) ∧
    (g.player ≠ g.food → g.player ∈ g.greenBlocks →
      g'.score = g.score + 25 ∧
        g'.greenBlocksEaten = g.greenBlocksEaten + 1 ∧
        g'.greenBlocks = g.greenBlocks.erase g.player ∧ g'.food = g.food ∧
        g'.foodEaten = g.foodEaten ∧ g'.redBlocksEaten = g.redBlocksEaten ∧
        (g.redBlocks = [] → g'.redBlocks = []) ∧
        (g.redBlocks ≠ [] →
          g'.redBlocks = g.redBlocks.eraseIdx
            (Int.floor (r k * (g.redBlocks.length : ℚ))).toNat ∧
          g'.redBlocks.length + 1 = g.redBlocks.length)) ∧
    (g.player ≠ g.food → g.player ∉ g.greenBlocks → g.player ∈ g.redBlocks →
      g'.score = g.score - 20 ∧ g'.redBlocksEaten = g.redBlocksEaten + 1 ∧
        g'.redBlocks = g.redBlocks.erase g.player ∧
        g'.greenBlocks = g.greenBlocks ∧ g'.food = g.food ∧
        g'.foodEaten = g.foodEaten ∧
        g'.greenBlocksEaten = g.greenBlocksEaten) ∧
    (g.player ≠ g.food → g.player ∉ g.greenBlocks → g.player ∉ g.redBlocks →
      g' = g) := by
  rw [checkCollisions] at hstep
  by_cases hpf : g.player = g.food
  · rw [if_pos hpf] at hstep
    cases hdraw : getRandomFreePosition g r k with
    | error e =>
      rw [hdraw] at hstep
      exact Except.noConfusion hstep
    | ok pk =>
      obtain ⟨pos, k1⟩ := pk
      rw [hdraw] at hstep
      have hng : g.player ∉ g.greenBlocks := by rw [hpf]; exact hfg
      have hnr : g.player ∉ g.redBlocks := by rw [hpf]; exact hfr
      simp only [collideBlocks,
        processGreens_not_mem g.player r g.greenBlocks g.redBlocks k1 hng,
        processReds_not_mem g.player g.redBlocks hnr, Except.ok.injEq,
        Prod.mk.injEq] at hstep
      obtain ⟨hg, hk⟩ := hstep
      subst hg
      have hspec := drawFreeGo_ok_spec (isOccupied g) g.width g.height r hr hw
        hh 1000 k pos k1 hdraw
      refine ⟨fun _ => ?_, fun hne _ => absurd hpf hne,
        fun hne _ _ => absurd hpf hne, fun hne _ _ => absurd hpf hne⟩
      refine ⟨by norm_num, rfl, hspec.1, hspec.2.1, hspec.2.2.1,
        hspec.2.2.2.1, hspec.2.2.2.2, rfl, rfl, rfl, rfl⟩
  · rw [if_neg hpf] at hstep
    simp only [Except.ok.injEq] at hstep
    refine ⟨fun hp => absurd hp hpf, ?_, ?_, ?_⟩
    · intro hne hmem
      have hnr : g.player ∉ g.redBlocks := hdisj g.player hmem
      have hst := hstep
      simp only [collideBlocks,
        processGreens_single g.player r g.greenBlocks g.redBlocks k hndg hmem]
        at hst
      by_cases hred : g.redBlocks = []
      · rw [if_pos hred, if_pos hred] at hst
        simp only [processReds_not_mem g.player g.redBlocks hnr,
          Prod.mk.injEq] at hst
        obtain ⟨hg, hk⟩ := hst
        subst hg
        refine ⟨by norm_num, rfl, rfl, rfl, rfl, rfl, fun _ => hred,
          fun hcon => absurd hred hcon⟩
      · rw [if_neg hred, if_neg hred] at hst
        have hidx : (Int.floor (r k * (g.redBlocks.length : ℚ))).toNat <
            g.redBlocks.length := by
          have hlenpos : 0 < g.redBlocks.length := List.length_pos.2 hred
          have hb := floor_draw_bounds (r k) (g.redBlocks.length : ℤ) (hr k).1
            (hr k).2 (by exact_mod_cast hlenpos)
          rw [show (((g.redBlocks.length : ℤ) : ℚ)) = (g.redBlocks.length : ℚ)
            from by push_cast; ring] at hb
          have := hb.2
          omega
        have hnr2 : g.player ∉ g.redBlocks.eraseIdx
            (Int.floor (r k * (g.redBlocks.length : ℚ))).toNat := fun hmem2 =>
          hnr (List.eraseIdx_subset _ _ hmem2)
        simp only [processReds_not_mem g.player _ hnr2, Prod.mk.injEq] at hst
        obtain ⟨hg, hk⟩ := hst
        subst hg
        refine ⟨by norm_num, rfl, rfl, rfl, rfl, rfl,
          fun hcon => absurd hcon hred, fun _ => ⟨rfl, ?_⟩⟩
        simp only [List.length_eraseIdx, hidx, if_true]
        omega
    · intro hne hnmem hmem
      have hst := hstep
      simp only [collideBlocks,
        processGreens_not_mem g.player r g.greenBlocks g.redBlocks k hnmem,
        processReds_single g.player g.redBlocks hndr hmem, Prod.mk.injEq]
        at hst
      obtain ⟨hg, hk⟩ := hst
      subst hg
      exact ⟨by norm_num, rfl, rfl, rfl, rfl, rfl, rfl⟩
    · intro hne hnm hnrm
      have hst := hstep
      simp only [collideBlocks,
        processGreens_not_mem g.player r g.greenBlocks g.redBlocks k hnm,
        processReds_not_mem g.player g.redBlocks hnrm, Prod.mk.injEq] at hst
      obtain ⟨hg, hk⟩ := hst
      subst hg
      ext1 <;> first | rfl | norm_num

/-- Witness for C5 at a concrete food pickup: the player stands on the food at
(1, 1) of an obstacle-free 20×15 board; `checkCollisions` awards 40 points,
bumps the counter and relocates the food to the freshly drawn cell (0, 0). -/
theorem checkCollisions_pickups_witness :
    (gF.greenBlocks.Nodup ∧ gF.redBlocks.Nodup ∧ gF.food ∉ gF.greenBlocks ∧
      gF.food ∉ gF.redBlocks ∧ (∀ p ∈ gF.greenBlocks, p ∉ gF.redBlocks) ∧
      (∀ n, 0 ≤ rZero n ∧ rZero n < 1) ∧ 0 < gF.width ∧ 0 < gF.height ∧
      checkCollisions gF rZero 0 = Except.ok (gFr, 2)) ∧
    (gF.player = gF.food →
      gFr.score = gF.score + 40 ∧ gFr.foodEaten = gF.foodEaten + 1 ∧
        isOccupied gF gFr.food = false ∧ 0 ≤ gFr.food.x ∧
        gFr.food.x < gF.width ∧ 0 ≤ gFr.food.y ∧ gFr.food.y < gF.height ∧
        gFr.greenBlocks = gF.greenBlocks ∧ gFr.redBlocks = gF.redBlocks ∧
        gFr.greenBlocksEaten = gF.greenBlocksEaten ∧
        gFr.redBlocksEaten = gF.redBlocksEaten) := by
  have hro : ∀ n, 0 ≤ rZero n ∧ rZero n < 1 := fun n => by norm_num [rZero]
  have hdrawF : getRandomFreePosition gF rZero 0 =
      Except.ok ((⟨0, 0⟩ : Pos), 2) := by
    apply drawFree_ok
    · norm_num [rZero, gF, g0s]
    · norm_num [rZero, gF, g0s]
    · decide
  have hstepF : checkCollisions gF rZero 0 = Except.ok (gFr, 2) := by
    rw [checkCollisions, if_pos (by decide : gF.player = gF.food), hdrawF]
    simp only [collideBlocks, processGreens, processReds]
    norm_num [gF, gFr, g0s]
  exact ⟨⟨by decide, by decide, by decide, by decide, by decide, hro,
    by decide, by decide, hstepF⟩,
    (checkCollisions_pickups gF rZero 0 gFr 2 (by decide) (by decide)
      (by decide) (by decide) (by decide) hro (by decide) (by decide)
      hstepF).1⟩

/-- The rejection-sampling loop reports the board-full error exactly when
every one of its permitted draws lands on an occupied cell. -/
theorem drawFreeGo_error_iff (occ : Pos → Bool) (w h : ℤ) (r : Nat → ℚ) :
    ∀ (fuel k : Nat),
      drawFreeGo occ w h r k fuel = Except.error () ↔
        ∀ i < fuel,
          occ ⟨Int.floor (r (k + 2 * i) * w),
            Int.floor (r (k + 2 * i + 1) * h)⟩ = true := by
  intro fuel
  induction fuel with
  | zero => intro k; simp [drawFreeGo]
  | succ n ih =>
    intro k
    rw [drawFreeGo_succ]
    by_cases h0 : occ ⟨Int.floor (r k * w), Int.floor (r (k + 1) * h)⟩ = true
    · rw [if_pos h0, ih (k + 2)]
      constructor
      · intro hall i hi
        cases i with
        | zero => simpa using h0
        | succ j =>
          have := hall j (by omega)
          rw [show k + 2 + 2 * j = k + 2 * (j + 1) from by ring] at this
          exact this
      · intro hall j hj
        have := hall (j + 1) (by omega)
        rw [show k + 2 * (j + 1) = k + 2 + 2 * j from by ring] at this
        exact this
    · rw [if_neg h0]
      constructor
      · intro hcon
        exact Except.noConfusion hcon
      · intro hall
        have := hall 0 (by omega)
        simp only [Nat.mul_zero, Nat.add_zero] at this
        exact absurd this h0

/-- Unfolding `isOccupied … = false` into its five disequalities. -/
theorem isOccupied_eq_false_iff (g : Game) (p : Pos) :
    isOccupied g p = false ↔
      p ≠ g.player ∧ p ≠ g.food ∧ p ∉ g.obstacles ∧ p ∉ g.redBlocks ∧
        p ∉ g.greenBlocks := by
  simp [isOccupied, and_assoc]

/-- C9: random free-cell placement fails with the fatal board-full error
exactly when 1000 consecutive draws are occupied; on success it returns an
unoccupied in-bounds cell; the error is not caught by `reset` and propagates;
and a successful `reset` places player and food on distinct, in-bounds,
non-obstacle cells. -/
theorem boardFull_spec (g : Game) (r : Nat → ℚ) (k : Nat)
    (hr : ∀ n, 0 ≤ r n ∧ r n < 1) (hw : 0 < g.width) (hh : 0 < g.height) :
    (getRandomFreePosition g r k = Except.error () ↔
      ∀ i < 1000,
        isOccupied g ⟨Int.floor (r (k + 2 * i) * g.width),
          Int.floor (r (k + 2 * i + 1) * g.height)⟩ = true) ∧
    (∀ (p : Pos) (k' : Nat),
      getRandomFreePosition g r k = Except.ok (p, k') →
      isOccupied g p = false ∧ 0 ≤ p.x ∧ p.x < g.width ∧ 0 ≤ p.y ∧
        p.y < g.height) ∧
    (getRandomFreePosition g r k = Except.error () →
      reset g r k = Except.error ()) ∧
    (∀ (g' : Game) (k' : Nat), reset g r k = Except.ok (g', k') →
      g'.player ≠ g'.food ∧ g'.player ∉ g'.obstacles ∧
        g'.food ∉ g'.obstacles ∧ 0 ≤ g'.player.x ∧ g'.player.x < g.width ∧
        0 ≤ g'.player.y ∧ g'.player.y < g.height ∧ 0 ≤ g'.food.x ∧
        g'.food.x < g.width ∧ 0 ≤ g'.food.y ∧ g'.food.y < g.height) := by
  refine ⟨drawFreeGo_error_iff (isOccupied g) g.width g.height r 1000 k,
    fun p k' hok =>
      drawFreeGo_ok_spec (isOccupied g) g.width g.height r hr hw hh 1000 k p
        k' hok, ?_, ?_⟩
  · intro herr
    have herr2 : getRandomFreePosition
        { g with tickCount := 0, score := 0 } r k = Except.error () := herr
    rw [reset, herr2]
  · intro g' k' hres
    rw [reset] at hres
    cases hdraw1 : getRandomFreePosition { g with tickCount := 0, score := 0 }
        r k with
    | error e =>
      rw [hdraw1] at hres
      exact Except.noConfusion hres
    | ok pk1 =>
      obtain ⟨p1, k1⟩ := pk1
      rw [hdraw1] at hres
      simp only [] at hres
      cases hdraw2 : getRandomFreePosition { g with tickCount := 0, score := 0, player := p1, redBlocks := [], greenBlocks := [] } r k1 with
      | error e =>
        rw [hdraw2] at hres
        exact Except.noConfusion hres
      | ok pk2 =>
        obtain ⟨p2, k2⟩ := pk2
        rw [hdraw2] at hres
        simp only [Except.ok.injEq, Prod.mk.injEq] at hres
        obtain ⟨hg, hk⟩ := hres
        subst hg
        have hs1 := drawFreeGo_ok_spec (isOccupied
            { g with tickCount := 0, score := 0 }) g.width g.height r hr hw hh
          1000 k p1 k1 hdraw1
        have hs2 := drawFreeGo_ok_spec (isOccupied { g with tickCount := 0, score := 0, player := p1, redBlocks := [], greenBlocks := [] }) g.width g.height r hr hw hh 1000 k1 p2 k2 hdraw2
        have ho1 := (isOccupied_eq_false_iff _ p1).1 hs1.1
        have ho2 := (isOccupied_eq_false_iff _ p2).1 hs2.1
        refine ⟨fun hcon => ho2.1 hcon.symm, ho1.2.2.1, ho2.2.2.1,
          hs1.2.1, hs1.2.2.1, hs1.2.2.2.1, hs1.2.2.2.2,
          hs2.2.1, hs2.2.2.1, hs2.2.2.2.1, hs2.2.2.2.2⟩

/-- Witness for C9 on the concrete 20×15 game `g0s` with the all-zero
oracle. -/
theorem boardFull_spec_witness :
    ((∀ n, 0 ≤ rZero n ∧ rZero n < 1) ∧ 0 < g0s.width ∧ 0 < g0s.height) ∧
    ((getRandomFreePosition g0s rZero 0 = Except.error () ↔
      ∀ i < 1000,
        isOccupied g0s ⟨Int.floor (rZero (0 + 2 * i) * g0s.width),
          Int.floor (rZero (0 + 2 * i + 1) * g0s.height)⟩ = true) ∧
    (∀ (p : Pos) (k' : Nat),
      getRandomFreePosition g0s rZero 0 = Except.ok (p, k') →
      isOccupied g0s p = false ∧ 0 ≤ p.x ∧ p.x < g0s.width ∧ 0 ≤ p.y ∧
        p.y < g0s.height) ∧
    (getRandomFreePosition g0s rZero 0 = Except.error () →
      reset g0s rZero 0 = Except.error ()) ∧
    (∀ (g' : Game) (k' : Nat), reset g0s rZero 0 = Except.ok (g', k') →
      g'.player ≠ g'.food ∧ g'.player ∉ g'.obstacles ∧
        g'.food ∉ g'.obstacles ∧ 0 ≤ g'.player.x ∧ g'.player.x < g0s.width ∧
        0 ≤ g'.player.y ∧ g'.player.y < g0s.height ∧ 0 ≤ g'.food.x ∧
        g'.food.x < g0s.width ∧ 0 ≤ g'.food.y ∧ g'.food.y < g0s.height)) := by
  have hro : ∀ n, 0 ≤ rZero n ∧ rZero n < 1 := fun n => by norm_num [rZero]
  exact ⟨⟨hro, by decide, by decide⟩,
    boardFull_spec g0s rZero 0 hro (by decide) (by decide)⟩

/-- Witness for C4: one concrete `step` (a rejected up-move from (0, 0) on the
20×15 board with the cross obstacles). -/
theorem step_player_safe_witness :
    (isWithinBounds g0s g0s.player.x g0s.player.y = true ∧
      g0s.player ∉ g0s.obstacles ∧
      step 5 g0s Action.up rZero 0 = Except.ok (gW1, -7 / 2, false, 0)) ∧
    ((gW1.player = g0s.player ∨ gW1.player = targetPos g0s.player Action.up) ∧
      isWithinBounds gW1 gW1.player.x gW1.player.y = true ∧
      gW1.player ∉ gW1.obstacles ∧ gW1.obstacles = g0s.obstacles) := by
  have hstepEx : step 5 g0s Action.up rZero 0 =
      Except.ok (gW1, -7 / 2, false, 0) := by
    have hmv : movePlayer g0s Action.up = g0s := by
      rw [movePlayer, if_neg]; decide
    have hpre : stepPre g0s Action.up = gpre := by
      simp only [stepPre, hmv]
      norm_num [patternPenalty, last8Penalty, last10Penalty, lastN, g0s, gpre,
        EXPLORATION_BONUS]
    have hcc : checkCollisions gpre rZero 0 = Except.ok (gpre, 0) := by
      rw [checkCollisions, if_neg (by decide : ¬(gpre.player = gpre.food))]
      simp only [collideBlocks, processGreens, processReds]
      norm_num [gpre, g0s]
    have htk : tick 5 gpre rZero 0 = Except.ok (gW1, 0) := by
      rw [tick, if_neg (by decide :
        ¬(({ gpre with tickCount := gpre.tickCount + 1 } : Game).tickCount % 5
          = 0))]
      rfl
    rw [step, hpre, hcc]
    simp only []
    rw [htk]
    norm_num [gW1, gpre, g0s]
  exact ⟨⟨by decide, by decide, hstepEx⟩,
    step_player_safe 5 g0s Action.up rZero 0 gW1 (-7 / 2) false 0 (by decide)
      (by decide) hstepEx⟩

end SolidBlockRL
